import Mathlib

/-!
Shallow embedding of `src/sturdy/base/validator.py` (`BaseValidatorNeuron`):
the validator control loop of the Sturdy subnet.  Torch float32 tensors are
modelled as lists of an IEEE-style value type `F` (a rational payload plus
the non-finite values NaN, +inf, -inf); the mutable neuron object becomes an
explicit state record `VState`; the asyncio machinery of
`concurrent_forward` becomes a deterministic fold over the list of sub-cycle
outcomes.
-/

/-- IEEE-style floating value: a finite rational, NaN, or a signed infinity.
Rounding is not modelled (finite arithmetic is exact over `ℚ`); the
NaN/infinity propagation rules follow IEEE 754 as implemented by torch. -/
inductive F where
  | fin : ℚ → F
  | nan : F
  | inf : F
  | ninf : F
deriving DecidableEq, Repr

/-- `torch.isnan`, pointwise. -/
def F.isnan : F → Bool
  | .nan => true
  | _ => false

/-- `torch.isfinite`, pointwise. -/
def F.isfinite : F → Bool
  | .fin _ => true
  | _ => false

/-- Absolute value with IEEE propagation (`torch.abs`). -/
def F.abs : F → F
  | .fin q => .fin |q|
  | .nan => .nan
  | .inf => .inf
  | .ninf => .inf

/-- Multiplication by a finite scalar (`alpha * tensor`), with the IEEE rule
`0 * (±inf) = NaN`. -/
def F.smul (a : ℚ) : F → F
  | .fin q => .fin (a * q)
  | .nan => .nan
  | .inf => if 0 < a then .inf else if a < 0 then .ninf else .nan
  | .ninf => if 0 < a then .ninf else if a < 0 then .inf else .nan

/-- IEEE addition (`tensor + tensor`), with `inf + (-inf) = NaN`. -/
def F.add : F → F → F
  | .nan, _ => .nan
  | _, .nan => .nan
  | .fin a, .fin b => .fin (a + b)
  | .inf, .ninf => .nan
  | .ninf, .inf => .nan
  | .inf, _ => .inf
  | _, .inf => .inf
  | .ninf, _ => .ninf
  | _, .ninf => .ninf

/-- Largest finite float32 value, `(2 - 2⁻²³) · 2¹²⁷`. -/
def FMAX : ℚ := 2 ^ 128 - 2 ^ 104

/-- `torch.nan_to_num(x, 0)`: NaN becomes `0`; with the `posinf`/`neginf`
arguments left at their defaults, the infinities become the largest/smallest
finite float32 value, not `0`. -/
def F.nanToNum : F → F
  | .nan => .fin 0
  | .inf => .fin FMAX
  | .ninf => .fin (-FMAX)
  | .fin q => .fin q

/-- `Tensor.clamp_min(eps)` on a scalar; NaN propagates through clamping. -/
def F.clampMin : F → ℚ → F
  | .nan, _ => .nan
  | .fin q, e => .fin (max q e)
  | .inf, _ => .inf
  | .ninf, e => .fin e

/-- IEEE division (used by `torch.nn.functional.normalize`). -/
def F.div : F → F → F
  | .nan, _ => .nan
  | _, .nan => .nan
  | .fin a, .fin b =>
      if b = 0 then (if a = 0 then .nan else if 0 < a then .inf else .ninf)
      else .fin (a / b)
  | .fin _, .inf => .fin 0
  | .fin _, .ninf => .fin 0
  | .inf, .fin b => if b < 0 then .ninf else .inf
  | .ninf, .fin b => if b < 0 then .inf else .ninf
  | .inf, .inf => .nan
  | .inf, .ninf => .nan
  | .ninf, .inf => .nan
  | .ninf, .ninf => .nan

/-- Left-to-right tensor sum (`Tensor.sum` / the reduction inside `norm`). -/
def fsum (v : List F) : F := v.foldl F.add (F.fin 0)

/-- The `eps` default of `torch.nn.functional.normalize`. -/
def EPS : ℚ := 1 / 10 ^ 12

/-- `torch.nn.functional.normalize(v, p=1, dim=0)`:
`v / v.norm(1).clamp_min(eps)`. -/
def l1_normalize (v : List F) (eps : ℚ) : List F :=
  let d := F.clampMin (fsum (v.map F.abs)) eps
  v.map (fun x => F.div x d)

/-- The normalization step of `BaseValidatorNeuron.set_weights` (line 312):
`raw_weights = torch.nn.functional.normalize(self.scores, p=1, dim=0)`.
The subsequent `process_weights_for_netuid` / `convert_weights_and_uids_for_emit`
calls are external `bt.utils` collaborators and are out of scope. -/
def set_weights_raw (scores : List F) : List F := l1_normalize scores EPS

/-- `Tensor.scatter(0, uids, rewards)`: write `rewards[k]` at index `uids[k]`
into a copy of the base tensor, all other entries copied unchanged. -/
def scatter : List F → List Nat → List F → List F
  | sc, [], _ => sc
  | sc, _, [] => sc
  | sc, u :: us, r :: rs => scatter (sc.set u r) us rs

/-- The elementwise EMA `alpha * scattered_rewards + (1 - alpha) * self.scores`
of `update_scores` (line 405). -/
def ema_blend (alpha : ℚ) (scattered scores : List F) : List F :=
  List.zipWith (fun r s => F.add (F.smul alpha r) (F.smul (1 - alpha) s)) scattered scores

/-- `BaseValidatorNeuron.update_scores(rewards, uids)` (lines 385-406):
if any reward is NaN, rewards are passed through `nan_to_num(·, 0)` (with a
logged warning); then the rewards are scattered over the current scores and
blended by the EMA with `alpha = config.neuron.moving_average_alpha`. -/
def update_scores (scores rewards : List F) (uids : List Nat) (alpha : ℚ) : List F :=
  let rewards2 := if rewards.any F.isnan then rewards.map F.nanToNum else rewards
  let scattered := scatter scores uids rewards2
  ema_blend alpha scattered scores

/-- One entry of `metagraph.axons`: the hotkey of the neuron it belongs to
plus its endpoint information (opaque here). -/
structure Axon where
  hotkey : String
  ip : String
deriving DecidableEq, Repr

/-- The slice of `bt.metagraph` state the validator reads: the ordered hotkey
list and the axon list (`metagraph.n` is `hotkeys.length`). -/
structure Metagraph where
  hotkeys : List String
  axons : List Axon
deriving DecidableEq, Repr

/-- The mutable fields of `BaseValidatorNeuron` the embedded operations
touch: `self.step`, `self.scores`, `self.hotkeys` (the stored snapshot),
`self.last_query_block`, `self.metagraph`, and `self.wandb_run_log_count`
(a non-persisted field, kept to make persistence partiality visible). -/
structure VState where
  step : Nat
  scores : List F
  hotkeys : List String
  lastQueryBlock : Int
  metagraph : Metagraph
  wandbRunLogCount : Nat
deriving DecidableEq, Repr

/-- One iteration of the zeroing loop of `resync_metagraph` (lines 369-371):
`if hotkey != self.metagraph.hotkeys[uid]: self.scores[uid] = 0`. -/
def zstep (oldHk newHk : List String) (sc : List F) (uid : Nat) : List F :=
  if oldHk[uid]? ≠ newHk[uid]? then sc.set uid (F.fin 0) else sc

/-- The full zeroing loop `for uid, hotkey in enumerate(self.hotkeys)` of
`resync_metagraph`. -/
def zeroReplaced (oldHk newHk : List String) (scores : List F) : List F :=
  (List.range oldHk.length).foldl (zstep oldHk newHk) scores

/-- `BaseValidatorNeuron.resync_metagraph` (lines 353-383), with the post-sync
metagraph passed in explicitly (the chain sync itself is an external
collaborator).  The Python function is annotated `-> None` and every path
returns `None`; the returned value is embedded as `Option Bool` with `none`
standing for Python `None`, so it can be compared against the spec contract
`resync(current) -> bool`.  Steps: early return when the axon lists are
equal; zero the score of every slot whose stored hotkey differs from the new
one; if the registry grew, copy the first `min(len(hotkeys), len(scores))`
scores into a fresh zero vector of the new length; store the new hotkeys. -/
def resync_metagraph (st : VState) (newMg : Metagraph) : Option Bool × VState :=
  let previous := st.metagraph
  let st1 : VState := { st with metagraph := newMg }
  if previous.axons = newMg.axons then
    (none, st1)
  else
    let scores1 := zeroReplaced st1.hotkeys newMg.hotkeys st1.scores
    let scores2 :=
      if st1.hotkeys.length < newMg.hotkeys.length then
        let minLen := min st1.hotkeys.length scores1.length
        scores1.take minLen ++ List.replicate (newMg.hotkeys.length - minLen) (F.fin 0)
      else scores1
    (none, { st1 with scores := scores2, hotkeys := newMg.hotkeys })

/-- The dictionary written by `save_state` (lines 408-421): step counter,
score vector, hotkey snapshot, last-queried block. -/
structure SavedState where
  step : Nat
  scores : List F
  hotkeys : List String
  lastQueryBlock : Int
deriving DecidableEq, Repr

/-- `BaseValidatorNeuron.save_state`: serialize the four persisted fields. -/
def save_state (st : VState) : SavedState :=
  { step := st.step
    scores := st.scores
    hotkeys := st.hotkeys
    lastQueryBlock := st.lastQueryBlock }

/-- `BaseValidatorNeuron.load_state`: overwrite the four persisted fields of
the current state with the loaded blob; other fields are untouched. -/
def load_state (st : VState) (b : SavedState) : VState :=
  { st with
    step := b.step
    scores := b.scores
    hotkeys := b.hotkeys
    lastQueryBlock := b.lastQueryBlock }

/-- Cadence-control skeleton of one pass of the `while True` body of
`run` (lines 164-224): read `current_block`, dispatch the concurrent forward
only when `current_block - self.last_query_block > QUERY_RATE`, and in that
case record `self.last_query_block = current_block`; finally `self.step += 1`.
The returned Bool reports whether a probe cycle was dispatched; the forward
itself, metagraph sync and wandb logging are external effects elided here.
`QUERY_RATE` (from `sturdy.constants`, not part of the embedded source) is a
parameter. -/
def run_tick (queryRate : Int) (st : VState) (currentBlock : Int) : VState × Bool :=
  if currentBlock - st.lastQueryBlock > queryRate then
    ({ st with lastQueryBlock := currentBlock, step := st.step + 1 }, true)
  else
    ({ st with step := st.step + 1 }, false)

/-- Outcome of one tick body of the `run` loop, as scheduled by the
environment: normal completion, an uncaught `Exception`, or a
`KeyboardInterrupt`. -/
inductive TickOutcome where
  | ok
  | err
  | interrupt
deriving DecidableEq, Repr

/-- How `run` (lines 133-235) terminated. -/
inductive RunExit where
  | finished
  | errorLogged
  | keyboardExit
deriving DecidableEq, Repr

/-- The exception structure of `BaseValidatorNeuron.run`: a single
`try ... except KeyboardInterrupt ... except Exception` wrapped around the
entire `while True` loop.  Given a finite schedule of tick outcomes, returns
how many ticks executed and how the function returned: a tick that raises a
generic `Exception` transfers control out of the `while` loop to the
`except Exception` handler (lines 233-235), which logs and falls off the end
of `run`. -/
def run_loop : List TickOutcome → Nat × RunExit
  | [] => (0, RunExit.finished)
  | TickOutcome.ok :: ts =>
      let r := run_loop ts
      (r.1 + 1, r.2)
  | TickOutcome.err :: _ => (1, RunExit.errorLogged)
  | TickOutcome.interrupt :: _ => (1, RunExit.keyboardExit)

/-- A reward batch as delivered by one forward sub-cycle. -/
def RewardBatch : Type := List (Nat × ℚ)

/-- Error payload of a failed sub-cycle. -/
def Err : Type := String

/-- `asyncio.gather(*coroutines)` with the default
`return_exceptions=False`: if every awaitable succeeds, the list of results;
otherwise the first raised exception propagates to the awaiter. -/
def gather : List (Except Err RewardBatch) → Except Err (List RewardBatch)
  | [] => Except.ok []
  | Except.error e :: _ => Except.error e
  | Except.ok b :: rest =>
      match gather rest with
      | Except.error e => Except.error e
      | Except.ok bs => Except.ok (b :: bs)

/-- `BaseValidatorNeuron.concurrent_forward` (lines 129-131): gather the
`num_concurrent_forwards` sub-cycle coroutines; each sub-cycle outcome is
supplied by the external forward collaborator. -/
def concurrent_forward (subs : List (Except Err RewardBatch)) : Except Err (List RewardBatch) :=
  gather subs

/-- Result of `run_concurrent_forward` (lines 237-241): either the cycle
completed with all batches, or the exception escaping `concurrent_forward`
was caught at the whole-cycle boundary and logged. -/
inductive CycleResult where
  | completed (batches : List RewardBatch)
  | caughtLogged (e : Err)

/-- `BaseValidatorNeuron.run_concurrent_forward`: `try: await
self.concurrent_forward() except Exception as e: bt.logging.error(...)`. -/
def run_concurrent_forward (subs : List (Except Err RewardBatch)) : CycleResult :=
  match concurrent_forward subs with
  | Except.ok bs => CycleResult.completed bs
  | Except.error e => CycleResult.caughtLogged e

/-- Concrete one-slot validator state used for the no-op resync scenario. -/
def stA : VState :=
  { step := 3
    scores := [F.fin 1]
    hotkeys := ["A"]
    lastQueryBlock := 7
    metagraph := { hotkeys := ["A"], axons := [{ hotkey := "A", ip := "ip0" }] }
    wandbRunLogCount := 0 }

/-- The identical registry snapshot delivered again at the next resync. -/
def mgA : Metagraph := { hotkeys := ["A"], axons := [{ hotkey := "A", ip := "ip0" }] }

/-- Concrete two-slot validator state used for the replacement scenario. -/
def stB : VState :=
  { step := 0
    scores := [F.fin 5, F.fin 7]
    hotkeys := ["A", "B"]
    lastQueryBlock := 0
    metagraph :=
      { hotkeys := ["A", "B"]
        axons := [{ hotkey := "A", ip := "ip1" }, { hotkey := "B", ip := "ip2" }] }
    wandbRunLogCount := 0 }

/-- Snapshot in which slot 1's occupant changed from B to C. -/
def mgB : Metagraph :=
  { hotkeys := ["A", "C"]
    axons := [{ hotkey := "A", ip := "ip1" }, { hotkey := "C", ip := "ip2" }] }

/-- Concrete three-slot validator state used for the growth scenario. -/
def stC : VState :=
  { step := 0
    scores := [F.fin 1, F.fin 2, F.fin 3]
    hotkeys := ["A", "B", "C"]
    lastQueryBlock := 0
    metagraph :=
      { hotkeys := ["A", "B", "C"]
        axons :=
          [{ hotkey := "A", ip := "ip1" }, { hotkey := "B", ip := "ip2" },
            { hotkey := "C", ip := "ip3" }] }
    wandbRunLogCount := 0 }

/-- Snapshot in which the registry grew from 3 to 5 slots, first 3 unchanged. -/
def mgC : Metagraph :=
  { hotkeys := ["A", "B", "C", "D", "E"]
    axons :=
      [{ hotkey := "A", ip := "ip1" }, { hotkey := "B", ip := "ip2" },
        { hotkey := "C", ip := "ip3" }, { hotkey := "D", ip := "ip4" },
        { hotkey := "E", ip := "ip5" }] }

/-! Helper lemmas about the embedded operations. -/

theorem zstep_length (o n : List String) (sc : List F) (a : Nat) :
    (zstep o n sc a).length = sc.length := by
  unfold zstep
  split <;> simp

theorem foldl_zstep_length (o n : List String) :
    ∀ (l : List Nat) (sc : List F), (l.foldl (zstep o n) sc).length = sc.length
  | [], _ => rfl
  | a :: l, sc => by
      rw [List.foldl_cons, foldl_zstep_length o n l, zstep_length]

theorem zeroReplaced_length (o n : List String) (sc : List F) :
    (zeroReplaced o n sc).length = sc.length :=
  foldl_zstep_length o n _ sc

theorem foldl_zstep_getElem? (o n : List String) :
    ∀ (l : List Nat) (sc : List F) (i : Nat),
      (l.foldl (zstep o n) sc)[i]? =
        if i ∈ l ∧ o[i]? ≠ n[i]? then (sc.set i (F.fin 0))[i]? else sc[i]?
  | [], sc, i => by simp
  | a :: l, sc, i => by
      rw [List.foldl_cons, foldl_zstep_getElem? o n l (zstep o n sc a) i]
      by_cases hd : o[i]? ≠ n[i]?
      · by_cases hil : i ∈ l
        · rw [if_pos ⟨hil, hd⟩, if_pos ⟨List.mem_cons_of_mem a hil, hd⟩]
          rw [List.getElem?_set, List.getElem?_set]
          simp [zstep_length]
        · by_cases hia : i = a
          · subst hia
            rw [if_neg (fun h => hil h.1), if_pos ⟨List.mem_cons_self i l, hd⟩]
            simp only [zstep, if_pos hd]
          · rw [if_neg (fun h => hil h.1),
              if_neg (fun h => (List.mem_cons.mp h.1).elim hia hil)]
            simp only [zstep]
            split
            · exact List.getElem?_set_ne (fun h => hia h.symm)
            · rfl
      · rw [if_neg (fun h => hd h.2), if_neg (fun h => hd h.2)]
        by_cases hia : i = a
        · subst hia
          simp only [zstep, if_neg hd]
        · simp only [zstep]
          split
          · exact List.getElem?_set_ne (fun h => hia h.symm)
          · rfl

theorem zeroReplaced_getElem? (o n : List String) (sc : List F) (i : Nat) :
    (zeroReplaced o n sc)[i]? =
      if i < o.length ∧ o[i]? ≠ n[i]? then (sc.set i (F.fin 0))[i]? else sc[i]? := by
  rw [zeroReplaced, foldl_zstep_getElem?]
  simp [List.mem_range]

theorem zeroReplaced_self (o : List String) :
    ∀ (l : List Nat) (sc : List F), l.foldl (zstep o o) sc = sc
  | [], _ => rfl
  | a :: l, sc => by
      rw [List.foldl_cons]
      have : zstep o o sc a = sc := by simp [zstep]
      rw [this, zeroReplaced_self o l]

theorem scatter_length : ∀ (sc : List F) (us : List Nat) (rs : List F),
    (scatter sc us rs).length = sc.length
  | _, [], _ => by simp [scatter]
  | _, _ :: _, [] => by simp [scatter]
  | sc, u :: us, r :: rs => by
      rw [scatter, scatter_length, List.length_set]

theorem scatter_getElem?_of_not_mem :
    ∀ (sc : List F) (us : List Nat) (rs : List F) (i : Nat),
      i ∉ us → (scatter sc us rs)[i]? = sc[i]?
  | _, [], _, _, _ => by simp [scatter]
  | _, _ :: _, [], _, _ => by simp [scatter]
  | sc, u :: us, r :: rs, i, h => by
      rw [scatter, scatter_getElem?_of_not_mem _ us rs i (fun hm => h (List.mem_cons_of_mem u hm))]
      exact List.getElem?_set_ne (fun hui => h (by rw [← hui]; exact List.mem_cons_self u us))

theorem scatter_getElem?_of_mem :
    ∀ (sc : List F) (us : List Nat) (rs : List F) (k i : Nat) (r : F),
      us.Nodup → us[k]? = some i → rs[k]? = some r → i < sc.length →
      (scatter sc us rs)[i]? = some r
  | _, [], _, k, _, _, _, hk, _, _ => by simp at hk
  | _, _ :: _, [], k, _, _, _, _, hr, _ => by simp at hr
  | sc, u :: us, r' :: rs, k, i, r, hnd, hk, hr, hi => by
      cases k with
      | zero =>
          have hui : u = i := by simpa using hk
          have hrr : r' = r := by simpa using hr
          subst hui
          subst hrr
          rw [scatter]
          have hnm : u ∉ us := (List.nodup_cons.mp hnd).1
          rw [scatter_getElem?_of_not_mem _ us rs u hnm]
          exact List.getElem?_set_self hi
      | succ k =>
          rw [scatter]
          exact scatter_getElem?_of_mem (sc.set u r') us rs k i r
            (List.nodup_cons.mp hnd).2 (by simpa using hk) (by simpa using hr)
            (by simpa [List.length_set] using hi)

theorem ema_blend_getElem? (alpha : ℚ) (a b : List F) (i : Nat) :
    (ema_blend alpha a b)[i]? =
      match a[i]?, b[i]? with
      | some x, some y => some (F.add (F.smul alpha x) (F.smul (1 - alpha) y))
      | _, _ => none := by
  rw [ema_blend, List.getElem?_zipWith]
  cases a[i]? <;> cases b[i]? <;> rfl

theorem any_isnan_map_fin (rs : List ℚ) : (rs.map F.fin).any F.isnan = false := by
  simp [List.any_map, Function.comp, F.isnan]

theorem update_scores_map_fin (qs rs : List ℚ) (uids : List Nat) (alpha : ℚ) :
    update_scores (qs.map F.fin) (rs.map F.fin) uids alpha =
      ema_blend alpha (scatter (qs.map F.fin) uids (rs.map F.fin)) (qs.map F.fin) := by
  unfold update_scores
  rw [any_isnan_map_fin]
  simp

theorem all_isfinite_map_fin (qs : List ℚ) : (qs.map F.fin).all F.isfinite = true := by
  rw [List.all_eq_true]
  intro x hx
  obtain ⟨q, _, rfl⟩ := List.mem_map.mp hx
  rfl

theorem all_isfinite_nanToNum (rs : List F) : (rs.map F.nanToNum).all F.isfinite = true := by
  rw [List.all_eq_true]
  intro x hx
  obtain ⟨y, _, rfl⟩ := List.mem_map.mp hx
  cases y <;> rfl

theorem all_isfinite_scatter (sc : List F) (us : List Nat) (rs : List F)
    (hsc : sc.all F.isfinite = true) (hrs : rs.all F.isfinite = true) :
    (scatter sc us rs).all F.isfinite = true := by
  induction us generalizing sc rs with
  | nil => simpa [scatter] using hsc
  | cons u us ih =>
    cases rs with
    | nil => simpa [scatter] using hsc
    | cons r rs =>
      simp only [List.all_cons, Bool.and_eq_true] at hrs
      rw [scatter]
      apply ih
      · rw [List.all_eq_true] at hsc ⊢
        intro x hx
        rcases List.mem_or_eq_of_mem_set hx with h | h
        · exact hsc x h
        · subst h
          exact hrs.1
      · exact hrs.2

theorem all_isfinite_blend (alpha : ℚ) (a b : List F)
    (ha : a.all F.isfinite = true) (hb : b.all F.isfinite = true) :
    (ema_blend alpha a b).all F.isfinite = true := by
  induction a generalizing b with
  | nil => simp [ema_blend]
  | cons x a ih =>
    cases b with
    | nil => simp [ema_blend]
    | cons y b =>
      simp only [List.all_cons, Bool.and_eq_true] at ha hb
      have h1 : (ema_blend alpha a b).all F.isfinite = true := ih b ha.2 hb.2
      obtain ⟨qx, rfl⟩ : ∃ q, x = F.fin q := by cases x <;> simp_all [F.isfinite]
      obtain ⟨qy, rfl⟩ : ∃ q, y = F.fin q := by cases y <;> simp_all [F.isfinite]
      simp only [ema_blend, List.zipWith_cons_cons, List.all_cons, Bool.and_eq_true]
      exact ⟨by simp [F.smul, F.add, F.isfinite], h1⟩

/-! Claim theorems. -/

/-- Claim C1 (code bug): the claim — and the source's own comment at line 232
("In case of unforeseen errors, the validator will log the error and continue
operations") — say the loop continues to the next tick after an error, but
the `try/except` of `run` wraps the whole `while True` loop: on a schedule
whose first tick raises and whose second tick is available, only one tick
executes; the error is caught and logged (`RunExit.errorLogged`, not a crash)
and `run` returns without ever executing the second tick. -/
theorem run_loop_stops_after_error :
    run_loop [TickOutcome.err, TickOutcome.ok] = (1, RunExit.errorLogged) := rfl

/-- Claim C2 counterexample: with K = 2 sub-cycles where the second fails,
`concurrent_forward` (which awaits `asyncio.gather` without
`return_exceptions`) propagates the failure as a fatal error for the whole
cycle — no batch list is delivered — refuting "a failure of one sub-cycle is
never propagated as a fatal error for the whole cycle". -/
theorem concurrent_forward_propagates_failure :
    concurrent_forward [Except.ok ([(0, (1 : ℚ))] : RewardBatch), Except.error "boom"] =
      Except.error "boom" := rfl

/-- Claim C2 (amended): when one sub-cycle fails, `asyncio.gather` propagates
the first error out of `concurrent_forward`, failing the whole cycle (the
successful sub-cycles' batches are not delivered through the gather result);
`run_concurrent_forward` catches and logs the error at the whole-cycle
boundary, so it does not escape further. -/
theorem run_concurrent_forward_catches (bs : List RewardBatch)
    (post : List (Except Err RewardBatch)) (e : Err) :
    concurrent_forward (bs.map Except.ok ++ Except.error e :: post) = Except.error e ∧
    run_concurrent_forward (bs.map Except.ok ++ Except.error e :: post) =
      CycleResult.caughtLogged e := by
  have h : gather (bs.map Except.ok ++ Except.error e :: post) = Except.error e := by
    induction bs with
    | nil => rfl
    | cons b l ih =>
        simp only [List.map_cons, List.cons_append, gather, List.append_eq]
        rw [ih]
  exact ⟨h, by simp [run_concurrent_forward, concurrent_forward, h]⟩

/-- Claim C3 counterexample: a reward batch containing `+inf` (and no NaN) is
merged without any substitution — `update_scores` checks `torch.isnan` only —
so the resulting score vector contains a non-finite entry, refuting "every
non-finite reward value (NaN or ±infinity) is replaced with 0". -/
theorem update_scores_keeps_infinity :
    update_scores [F.fin 0] [F.inf] [0] (1 / 2) = [F.inf] ∧ F.isfinite F.inf = false := by
  constructor
  · norm_num [update_scores, ema_blend, scatter, F.smul, F.add, F.isnan, List.any]
  · rfl

/-- Claim C3 (amended): substitution happens only when the batch contains at
least one NaN; in that case `nan_to_num` maps NaN to 0 and the infinities to
the largest finite float values, so, from finite prior scores, the updated
score vector is entirely finite.  (A batch with ±infinity but no NaN is
merged unmodified — see the counterexample.) -/
theorem update_scores_nan_batch_finite (qs : List ℚ) (rewards : List F) (uids : List Nat)
    (alpha : ℚ) (hnan : rewards.any F.isnan = true) :
    (update_scores (qs.map F.fin) rewards uids alpha).all F.isfinite = true := by
  unfold update_scores
  rw [if_pos hnan]
  apply all_isfinite_blend
  · apply all_isfinite_scatter
    · exact all_isfinite_map_fin qs
    · exact all_isfinite_nanToNum rewards
  · exact all_isfinite_map_fin qs

/-- Witness for the amended C3 theorem at a concrete input. -/
theorem update_scores_nan_batch_finite_witness :
    ([F.nan].any F.isnan = true) ∧
    (update_scores ([1].map F.fin) [F.nan] [0] (1 / 2)).all F.isfinite = true :=
  ⟨by decide, update_scores_nan_batch_finite [1] [F.nan] [0] (1 / 2) (by decide)⟩

/-- Claim C4 (code bug): the comment above the normalization (line 311,
"Replace any NaN values with 0.") and the claim say a NaN score is treated
as 0, but `torch.nn.functional.normalize` propagates NaN: on scores
`[NaN, 1.0]` the raw weight vector is `[NaN, NaN]` — it neither sums to 1
nor assigns weight 1 to the only nonzero score. -/
theorem set_weights_nan_propagates :
    set_weights_raw [F.nan, F.fin 1] = [F.nan, F.nan] ∧
    fsum (set_weights_raw [F.nan, F.fin 1]) ≠ F.fin 1 := by
  have h : set_weights_raw [F.nan, F.fin 1] = [F.nan, F.nan] := by
    norm_num [set_weights_raw, l1_normalize, fsum, F.abs, F.add, F.clampMin, F.div, EPS]
  refine ⟨h, ?_⟩
  rw [h]
  simp [fsum, F.add]

/-- Claim C9: in one pass of the `run` loop body, the concurrent forward is
dispatched exactly when `current_block - last_query_block > QUERY_RATE`, and
`last_query_block` is set to the current block exactly on dispatch (otherwise
it is unchanged). -/
theorem run_tick_cadence (q : Int) (st : VState) (cb : Int) :
    ((run_tick q st cb).2 = true ↔ cb - st.lastQueryBlock > q) ∧
    (run_tick q st cb).1.lastQueryBlock =
      (if cb - st.lastQueryBlock > q then cb else st.lastQueryBlock) := by
  by_cases h : cb - st.lastQueryBlock > q
  · simp [run_tick, h]
  · simp [run_tick, h]

/-- Claim C10: `load_state` after `save_state` restores the four persisted
fields — step counter, score vector, hotkey snapshot, last-queried block —
to their values at save time, whatever the state looked like in between. -/
theorem save_load_roundtrip (st other : VState) :
    (load_state other (save_state st)).step = st.step ∧
    (load_state other (save_state st)).scores = st.scores ∧
    (load_state other (save_state st)).hotkeys = st.hotkeys ∧
    (load_state other (save_state st)).lastQueryBlock = st.lastQueryBlock :=
  ⟨rfl, rfl, rfl, rfl⟩

/-- Claim C6: a slot whose stored hotkey differs from the hotkey the new
snapshot assigns to it has its score zeroed by `resync_metagraph`, whatever
its prior value.  The hypotheses record the metagraph invariant that each
axon entry carries the hotkey of its slot (so differing hotkeys force the
axon-equality early return not to fire). -/
theorem resync_zeroes_replaced_slot (st : VState) (newMg : Metagraph) (s : Nat)
    (hmo : st.metagraph.axons.map Axon.hotkey = st.hotkeys)
    (hmn : newMg.axons.map Axon.hotkey = newMg.hotkeys)
    (hs : s < st.hotkeys.length)
    (hsc : s < st.scores.length)
    (hdiff : st.hotkeys[s]? ≠ newMg.hotkeys[s]?) :
    (resync_metagraph st newMg).2.scores[s]? = some (F.fin 0) := by
  have hax : ¬ (st.metagraph.axons = newMg.axons) := by
    intro h
    apply hdiff
    have hh : st.hotkeys = newMg.hotkeys := by rw [← hmo, ← hmn, h]
    rw [hh]
  have h1 : (zeroReplaced st.hotkeys newMg.hotkeys st.scores)[s]? = some (F.fin 0) := by
    rw [zeroReplaced_getElem?, if_pos ⟨hs, hdiff⟩]
    exact List.getElem?_set_self hsc
  have hlen1 : (zeroReplaced st.hotkeys newMg.hotkeys st.scores).length = st.scores.length :=
    zeroReplaced_length _ _ _
  unfold resync_metagraph
  simp only [if_neg hax]
  by_cases hg : st.hotkeys.length < newMg.hotkeys.length
  · simp only [if_pos hg]
    have hsmin : s < min st.hotkeys.length
        (zeroReplaced st.hotkeys newMg.hotkeys st.scores).length := by
      rw [hlen1]
      exact lt_min hs hsc
    rw [List.getElem?_append_left (by rw [List.length_take]; omega),
      List.getElem?_take_of_lt hsmin]
    exact h1
  · simp only [if_neg hg]
    exact h1

/-- Witness for the C6 theorem: slot 1's occupant changes from B to C and its
score drops from 7 to 0. -/
theorem resync_zeroes_replaced_slot_witness :
    (stB.hotkeys[1]? ≠ mgB.hotkeys[1]?) ∧
    (resync_metagraph stB mgB).2.scores[1]? = some (F.fin 0) :=
  ⟨by decide,
   resync_zeroes_replaced_slot stB mgB 1 (by decide) (by decide) (by decide) (by decide)
     (by decide)⟩

/-- Claim C7: when the registry grows (new snapshot = old hotkeys plus a
nonempty extension, so existing occupants are unchanged), `resync_metagraph`
grows the score vector to the new length, keeps every existing slot's score
at its original index, and gives every new slot score 0. -/
theorem resync_growth_preserves (st : VState) (newMg : Metagraph) (ext : List String)
    (hmo : st.metagraph.axons.map Axon.hotkey = st.hotkeys)
    (hmn : newMg.axons.map Axon.hotkey = newMg.hotkeys)
    (hlen : st.scores.length = st.hotkeys.length)
    (hext : newMg.hotkeys = st.hotkeys ++ ext)
    (hne : ext ≠ []) :
    (resync_metagraph st newMg).2.scores.length = newMg.hotkeys.length ∧
    (∀ i, i < st.hotkeys.length →
      (resync_metagraph st newMg).2.scores[i]? = st.scores[i]?) ∧
    (∀ i, st.hotkeys.length ≤ i → i < newMg.hotkeys.length →
      (resync_metagraph st newMg).2.scores[i]? = some (F.fin 0)) := by
  have hlt : st.hotkeys.length < newMg.hotkeys.length := by
    rw [hext, List.length_append]
    have hpos : 0 < ext.length := List.length_pos.mpr hne
    omega
  have hax : ¬ (st.metagraph.axons = newMg.axons) := by
    intro h
    have hh : st.hotkeys = newMg.hotkeys := by rw [← hmo, ← hmn, h]
    rw [hh] at hlt
    exact lt_irrefl _ hlt
  have hzr : zeroReplaced st.hotkeys newMg.hotkeys st.scores = st.scores := by
    apply List.ext_getElem?
    intro i
    rw [zeroReplaced_getElem?]
    by_cases hi : i < st.hotkeys.length
    · have heq : st.hotkeys[i]? = newMg.hotkeys[i]? := by
        rw [hext, List.getElem?_append_left hi]
      rw [if_neg (fun h => h.2 heq)]
    · rw [if_neg (fun h => hi h.1)]
  have hfinal : (resync_metagraph st newMg).2.scores =
      st.scores ++ List.replicate (newMg.hotkeys.length - st.hotkeys.length) (F.fin 0) := by
    unfold resync_metagraph
    simp only [if_neg hax, if_pos hlt]
    rw [hzr]
    have hmin : min st.hotkeys.length st.scores.length = st.hotkeys.length := by omega
    rw [hmin, ← hlen, List.take_length]
  refine ⟨?_, ?_, ?_⟩
  · rw [hfinal, List.length_append, List.length_replicate]
    omega
  · intro i hi
    rw [hfinal, List.getElem?_append_left (by omega)]
  · intro i h1 h2
    rw [hfinal, List.getElem?_append_right (by omega), List.getElem?_replicate,
      if_pos (by omega)]

/-- Witness for the C7 theorem: growing a 3-slot registry to 5 slots keeps
slot 1's score and zeroes slot 3. -/
theorem resync_growth_preserves_witness :
    (mgC.hotkeys = stC.hotkeys ++ ["D", "E"]) ∧
    (resync_metagraph stC mgC).2.scores.length = 5 ∧
    (resync_metagraph stC mgC).2.scores[1]? = stC.scores[1]? ∧
    (resync_metagraph stC mgC).2.scores[3]? = some (F.fin 0) := by
  refine ⟨by decide, ?_, ?_, ?_⟩
  · have h := (resync_growth_preserves stC mgC ["D", "E"] (by decide) (by decide)
      (by decide) (by decide) (by decide)).1
    simpa using h
  · exact (resync_growth_preserves stC mgC ["D", "E"] (by decide) (by decide)
      (by decide) (by decide) (by decide)).2.1 1 (by decide)
  · exact (resync_growth_preserves stC mgC ["D", "E"] (by decide) (by decide)
      (by decide) (by decide) (by decide)).2.2 3 (by decide) (by decide)

/-- Claim C8 counterexample: on an identical snapshot (`stA`/`mgA`,
same identities position by position and same length), the resync operation
returns Python `None` — embedded as `none` — and not the boolean `false`
the claimed contract `resync(current) -> bool` prescribes. -/
theorem resync_returns_none_not_false :
    (resync_metagraph stA mgA).1 = none ∧ ((none : Option Bool) ≠ some false) := by
  constructor
  · by_cases hax : stA.metagraph.axons = mgA.axons
    · simp [resync_metagraph, hax]
    · simp [resync_metagraph, hax]
  · exact fun h => Option.noConfusion h

/-- Claim C8 (amended): `resync_metagraph` has no boolean result (it returns
`None` on every path); on a snapshot with identical identities, position by
position and same length, it leaves the score vector and the stored hotkey
snapshot bit-identical. -/
theorem resync_noop_on_identical (st : VState) (newMg : Metagraph)
    (hhk : st.hotkeys = newMg.hotkeys) :
    (resync_metagraph st newMg).1 = none ∧
    (resync_metagraph st newMg).2.scores = st.scores ∧
    (resync_metagraph st newMg).2.hotkeys = st.hotkeys := by
  unfold resync_metagraph
  by_cases hax : st.metagraph.axons = newMg.axons
  · simp [hax]
  · have h1 : zeroReplaced st.hotkeys newMg.hotkeys st.scores = st.scores := by
      rw [hhk, zeroReplaced]
      exact zeroReplaced_self newMg.hotkeys _ _
    have h2 : ¬ (st.hotkeys.length < newMg.hotkeys.length) := by
      rw [hhk]
      exact lt_irrefl _
    simp only [if_neg hax, if_neg h2, h1]
    simp [hhk]

/-- Witness for the amended C8 theorem at the concrete identical snapshot. -/
theorem resync_noop_on_identical_witness :
    stA.hotkeys = mgA.hotkeys ∧ (resync_metagraph stA mgA).2.scores = stA.scores :=
  ⟨rfl, (resync_noop_on_identical stA mgA rfl).2.1⟩

/-- Claim C5: for a reward batch with finite values (and finite prior
scores), `update_scores` sets every batched slot `i = uids[k]` to
`alpha * reward[k] + (1 - alpha) * old_score[i]`, leaves every slot absent
from the batch exactly unchanged, and is a no-op on the empty batch.
Finite tensors are written as `List ℚ` images under `F.fin`. -/
theorem update_scores_ema_spec (qs rs : List ℚ) (uids : List Nat) (alpha : ℚ)
    (hnd : uids.Nodup) :
    (∀ (k i : Nat) (r q : ℚ), uids[k]? = some i → rs[k]? = some r → qs[i]? = some q →
        (update_scores (qs.map F.fin) (rs.map F.fin) uids alpha)[i]? =
          some (F.fin (alpha * r + (1 - alpha) * q))) ∧
    (∀ i, i ∉ uids →
        (update_scores (qs.map F.fin) (rs.map F.fin) uids alpha)[i]? =
          (qs.map F.fin)[i]?) ∧
    update_scores (qs.map F.fin) ([] : List F) ([] : List Nat) alpha = qs.map F.fin := by
  refine ⟨?_, ?_, ?_⟩
  · intro k i r q hk hr hq
    rw [update_scores_map_fin, ema_blend_getElem?]
    have hi : i < (qs.map F.fin).length := by
      rw [List.length_map]
      exact (List.getElem?_eq_some_iff.mp hq).1
    have hsc : (scatter (qs.map F.fin) uids (rs.map F.fin))[i]? = some (F.fin r) :=
      scatter_getElem?_of_mem _ uids _ k i (F.fin r) hnd hk
        (by rw [List.getElem?_map, hr]; rfl) hi
    have hqm : (qs.map F.fin)[i]? = some (F.fin q) := by
      rw [List.getElem?_map, hq]
      rfl
    rw [hsc, hqm]
    rfl
  · intro i hm
    rw [update_scores_map_fin, ema_blend_getElem?,
      scatter_getElem?_of_not_mem _ uids _ i hm]
    cases hqi : (qs.map F.fin)[i]? with
    | none => rfl
    | some x =>
        rw [List.getElem?_map] at hqi
        obtain ⟨q, hq, rfl⟩ := Option.map_eq_some'.mp hqi
        show some (F.fin (alpha * q + (1 - alpha) * q)) = some (F.fin q)
        have hzq : alpha * q + (1 - alpha) * q = q := by ring
        rw [hzq]
  · unfold update_scores
    simp only [List.any_nil, Bool.false_eq_true, if_false]
    rw [scatter, ema_blend, List.zipWith_same, List.map_map]
    congr 1
    funext z
    show F.fin (alpha * z + (1 - alpha) * z) = F.fin z
    have hz : alpha * z + (1 - alpha) * z = z := by ring
    rw [hz]

/-- Witness for the C5 theorem: with scores `[1, 2]`, reward `3` at slot 0
and `alpha = 1/4`, slot 0 becomes `1/4·3 + 3/4·1` and slot 1 keeps its
score 2. -/
theorem update_scores_ema_spec_witness :
    ([0] : List Nat).Nodup ∧
    (update_scores ([1, 2].map F.fin) ([3].map F.fin) [0] (1 / 4))[0]? =
      some (F.fin (1 / 4 * 3 + (1 - 1 / 4) * 1)) ∧
    (update_scores ([1, 2].map F.fin) ([3].map F.fin) [0] (1 / 4))[1]? =
      some (F.fin 2) := by
  refine ⟨by decide, ?_, ?_⟩
  · exact (update_scores_ema_spec [1, 2] [3] [0] (1 / 4) (by decide)).1 0 0 3 1 rfl rfl rfl
  · have h := (update_scores_ema_spec [1, 2] [3] [0] (1 / 4) (by decide)).2.1 1 (by decide)
    rw [h]
    rfl
